import Mathlib

/-!
Verification of the hardware stress tool (stress_tool.py, stressors.py,
monitoring.py) against its specification.  Python code is shallowly embedded:
pure fragments become Lean functions, loops become traces or step functions,
and exceptional control flow is made explicit.  Numeric literals handled by
Python float() are modelled exactly as rationals (all values the tool's unit
arithmetic produces -- division by the power of two 1024 -- are exact in
binary floating point for the magnitudes involved).
-/

namespace StressTool

/-! ## Character-level helpers for the size-string parser (stress_tool.py) -/

/-- ASCII whitespace recognised by Python str.strip / float(): space, TAB, LF,
VT, FF, CR. -/
def isWs (c : Char) : Bool := c.toNat == 32 || (9 ≤ c.toNat && c.toNat ≤ 13)

/-- ASCII decimal digit test (Python str.isdigit on ASCII). -/
def isDigitChar (c : Char) : Bool := 48 ≤ c.toNat && c.toNat ≤ 57

/-- ASCII upper-casing of one character, as Python str.upper does on ASCII. -/
def upChar (c : Char) : Char :=
  if 97 ≤ c.toNat && c.toNat ≤ 122 then Char.ofNat (c.toNat - 32) else c

/-- Python str.upper over the characters of the string (ASCII fragment). -/
def upperChars (cs : List Char) : List Char := cs.map upChar

/-- Python str.strip(): drop whitespace from both ends. -/
def stripChars (cs : List Char) : List Char :=
  ((cs.dropWhile isWs).reverse.dropWhile isWs).reverse

/-- Python str.endswith(sfx). -/
def endsWithChars (cs sfx : List Char) : Bool :=
  cs.reverse.take sfx.length == sfx.reverse

/-- Python slicing s[:-n]: drop the last n characters. -/
def dropRightChars (n : ℕ) (cs : List Char) : List Char :=
  cs.take (cs.length - n)

/-- Value of a digit string read in base 10. -/
def digitsVal (cs : List Char) : ℕ :=
  cs.foldl (fun a c => 10 * a + (c.toNat - 48)) 0

/-- Python float() on a plain decimal numeral (optional sign, digits, optional
decimal point), returning its exact rational value; none when float() would
raise ValueError.  Exponent and inf/nan forms are not used by this tool's
inputs and are not modelled. -/
def floatChars (cs : List Char) : Option ℚ :=
  let t := stripChars cs
  let sb : ℚ × List Char :=
    match t with
    | '-' :: rest => (-1, rest)
    | '+' :: rest => (1, rest)
    | _ => (1, t)
  let intPart := sb.2.takeWhile (fun c => c != '.')
  let rest := sb.2.dropWhile (fun c => c != '.')
  match rest with
  | [] =>
      if intPart.all isDigitChar && !intPart.isEmpty then
        some (sb.1 * digitsVal intPart)
      else none
  | _ :: frac =>
      if intPart.all isDigitChar && frac.all isDigitChar &&
          (!intPart.isEmpty || !frac.isEmpty) then
        some (sb.1 * (digitsVal intPart + (digitsVal frac : ℚ) / 10 ^ frac.length))
      else none

/-- Python int() applied to a float value: truncation toward zero. -/
def pyInt (q : ℚ) : ℤ := if 0 ≤ q then ⌊q⌋ else -⌊-q⌋

/-- The suffix dispatch of stress_tool.parse_size, applied to the already
stripped and upper-cased character sequence: the suffixes GB, G, MB, M are
tested in that order (no suffix means GB), MB/M values are divided by 1024,
and the result is truncated with int(). -/
def parse_size_branches (t : List Char) : Option ℤ :=
  if endsWithChars t ['G', 'B'] then
    (floatChars (dropRightChars 2 t)).map pyInt
  else if endsWithChars t ['G'] then
    (floatChars (dropRightChars 1 t)).map pyInt
  else if endsWithChars t ['M', 'B'] then
    (floatChars (dropRightChars 2 t)).map (fun q => pyInt (q / 1024))
  else if endsWithChars t ['M'] then
    (floatChars (dropRightChars 1 t)).map (fun q => pyInt (q / 1024))
  else
    (floatChars t).map pyInt

/-- stress_tool.parse_size: `size_str = size_str.strip().upper()` followed by
the suffix dispatch.  none models the ValueError that float() raises on a
malformed numeral. -/
def parse_size (s : String) : Option ℤ :=
  parse_size_branches (upperChars (stripChars s.data))

/-- stress_tool.main: a Memory worker process is spawned iff the parsed
memory size is positive (`if mem_gb > 0`); a parse failure raises before any
worker starts. -/
def spawnsMemoryWorker (memory_arg : String) : Bool :=
  match parse_size memory_arg with
  | some g => decide (0 < g)
  | none => false

/-- stress_tool.main: a Disk worker process is spawned iff the parsed disk
size is positive (`if disk_gb > 0`). -/
def spawnsDiskWorker (disk_arg : String) : Bool :=
  match parse_size disk_arg with
  | some g => decide (0 < g)
  | none => false

/-- Characters a plain decimal numeral may contain. -/
def numericShaped (cs : List Char) : Bool :=
  cs.all (fun c => isDigitChar c || c == '.' || c == '-' || c == '+')

/-! ### Helper lemmas about the character-level functions -/

theorem dropWhile_isWs_eq_self (cs : List Char) (h : ∀ c ∈ cs, isWs c = false) :
    cs.dropWhile isWs = cs := by
  cases cs with
  | nil => rfl
  | cons a l =>
      rw [List.dropWhile_cons, if_neg]
      rw [h a (by simp)]
      simp

theorem stripChars_eq_self (cs : List Char) (h : ∀ c ∈ cs, isWs c = false) :
    stripChars cs = cs := by
  unfold stripChars
  rw [dropWhile_isWs_eq_self cs h]
  rw [dropWhile_isWs_eq_self cs.reverse (fun c hc => h c (List.mem_reverse.mp hc))]
  exact List.reverse_reverse cs

theorem shaped_char_bounds (c : Char)
    (h : (isDigitChar c || c == '.' || c == '-' || c == '+') = true) :
    43 ≤ c.toNat ∧ c.toNat ≤ 57 := by
  simp only [Bool.or_eq_true, beq_iff_eq] at h
  rcases h with ((h | h) | h) | h
  · simp only [isDigitChar, Bool.and_eq_true, decide_eq_true_eq] at h
    omega
  · subst h; exact ⟨by decide, by decide⟩
  · subst h; exact ⟨by decide, by decide⟩
  · subst h; exact ⟨by decide, by decide⟩

theorem isWs_eq_false_of_bounds (c : Char) (h : 33 ≤ c.toNat) : isWs c = false := by
  simp only [isWs, Bool.or_eq_false_iff, beq_eq_false_iff_ne, ne_eq,
    Bool.and_eq_false_iff, decide_eq_false_iff_not, not_le]
  omega

theorem upChar_eq_self_of_bounds (c : Char) (h : c.toNat ≤ 96) : upChar c = c := by
  unfold upChar
  rw [if_neg]
  simp only [Bool.and_eq_true, decide_eq_true_eq, not_and, not_le]
  omega

theorem shaped_last_ne (c : Char) (h : c.toNat ≤ 57) : c ≠ 'B' ∧ c ≠ 'G' ∧ c ≠ 'M' := by
  refine ⟨?_, ?_, ?_⟩ <;> rintro rfl <;> exact absurd h (by decide)

theorem upperChars_eq_self (cs : List Char) (h : ∀ c ∈ cs, upChar c = c) :
    upperChars cs = cs := by
  induction cs with
  | nil => rfl
  | cons a l ih =>
      simp only [upperChars, List.map_cons] at ih ⊢
      rw [h a (by simp), ih (fun c hc => h c (List.mem_cons_of_mem a hc))]

theorem endsWith_append (num sfx : List Char) :
    endsWithChars (num ++ sfx) sfx = true := by
  unfold endsWithChars
  rw [List.reverse_append, List.take_left' (List.length_reverse sfx)]
  simp

theorem dropRight_append (num sfx : List Char) :
    dropRightChars sfx.length (num ++ sfx) = num := by
  unfold dropRightChars
  rw [List.length_append]
  rw [show num.length + sfx.length - sfx.length = num.length by omega]
  exact List.take_left num sfx

theorem endsWith_false_one (num : List Char) (c d e : Char) (h : c ≠ e) :
    endsWithChars (num ++ [c]) [d, e] = false := by
  unfold endsWithChars
  rw [List.reverse_append]
  simp only [List.reverse_cons, List.reverse_nil, List.nil_append, List.length_cons,
    List.length_nil, List.singleton_append, List.take_succ_cons]
  rw [beq_eq_false_iff_ne]
  intro hx
  exact h (List.head_eq_of_cons_eq hx)

theorem endsWith_false_single (num : List Char) (c d : Char) (h : c ≠ d) :
    endsWithChars (num ++ [c]) [d] = false := by
  unfold endsWithChars
  rw [List.reverse_append]
  simp only [List.reverse_cons, List.reverse_nil, List.nil_append, List.length_cons,
    List.length_nil, List.singleton_append, List.take_succ_cons, List.take_zero]
  rw [beq_eq_false_iff_ne]
  intro hx
  exact h (List.head_eq_of_cons_eq hx)

theorem endsWith_false_two_head (num : List Char) (b c d e : Char) (h : c ≠ e) :
    endsWithChars (num ++ [b, c]) [d, e] = false := by
  unfold endsWithChars
  rw [List.reverse_append]
  simp only [List.reverse_cons, List.reverse_nil, List.nil_append, List.length_cons,
    List.length_nil, List.cons_append, List.take_succ_cons, List.take_zero]
  rw [beq_eq_false_iff_ne]
  intro hx
  exact h (List.head_eq_of_cons_eq hx)

theorem endsWith_false_two_second (num : List Char) (b c d e : Char) (h : b ≠ d) :
    endsWithChars (num ++ [b, c]) [d, e] = false := by
  unfold endsWithChars
  rw [List.reverse_append]
  simp only [List.reverse_cons, List.reverse_nil, List.nil_append, List.length_cons,
    List.length_nil, List.cons_append, List.take_succ_cons, List.take_zero]
  rw [beq_eq_false_iff_ne]
  intro hx
  exact h (List.head_eq_of_cons_eq (List.tail_eq_of_cons_eq hx))

theorem endsWith_false_two_tail (num : List Char) (c d e : Char) (h : c ≠ d) :
    endsWithChars (num ++ [c]) [e, d] = false := by
  unfold endsWithChars
  rw [List.reverse_append]
  simp only [List.reverse_cons, List.reverse_nil, List.nil_append, List.length_cons,
    List.length_nil, List.singleton_append, List.take_succ_cons]
  rw [beq_eq_false_iff_ne]
  intro hx
  exact h (List.head_eq_of_cons_eq hx)

theorem endsWith_false_two_single (num : List Char) (b c d : Char) (h : c ≠ d) :
    endsWithChars (num ++ [b, c]) [d] = false := by
  unfold endsWithChars
  rw [List.reverse_append]
  simp only [List.reverse_cons, List.reverse_nil, List.nil_append, List.length_cons,
    List.length_nil, List.cons_append, List.take_succ_cons, List.take_zero]
  rw [beq_eq_false_iff_ne]
  intro hx
  exact h (List.head_eq_of_cons_eq hx)

theorem endsWith_false_rev_head (cs : List Char) (c : Char) (l : List Char)
    (hc : cs.reverse = c :: l) (d e : Char) (h : c ≠ e) :
    endsWithChars cs [d, e] = false := by
  unfold endsWithChars
  rw [hc]
  simp only [List.reverse_cons, List.reverse_nil, List.nil_append, List.length_cons,
    List.length_nil, List.take_succ_cons]
  rw [beq_eq_false_iff_ne]
  intro hx
  exact h (List.head_eq_of_cons_eq hx)

theorem endsWith_false_rev_head_single (cs : List Char) (c : Char) (l : List Char)
    (hc : cs.reverse = c :: l) (d : Char) (h : c ≠ d) :
    endsWithChars cs [d] = false := by
  unfold endsWithChars
  rw [hc]
  simp only [List.reverse_cons, List.reverse_nil, List.nil_append, List.length_cons,
    List.length_nil, List.take_succ_cons, List.take_zero]
  rw [beq_eq_false_iff_ne]
  intro hx
  exact h (List.head_eq_of_cons_eq hx)

theorem upperChars_append (a b : List Char) :
    upperChars (a ++ b) = upperChars a ++ upperChars b :=
  List.map_append upChar a b

/-- Characters of a well-shaped numeral sit between 43 and 57 in ASCII. -/
theorem shaped_bounds (num : List Char) (hsh : numericShaped num = true) :
    ∀ c ∈ num, 43 ≤ c.toNat ∧ c.toNat ≤ 57 := by
  intro c hc
  have h := (List.all_eq_true.mp hsh) c hc
  exact shaped_char_bounds c h

/-- Stripping and upper-casing leave a well-shaped numeral followed by a
non-whitespace suffix unchanged apart from upper-casing the suffix. -/
theorem parse_size_reduction (num sfx : List Char) (hsh : numericShaped num = true)
    (hws : ∀ c ∈ sfx, isWs c = false) :
    parse_size (String.mk (num ++ sfx)) = parse_size_branches (num ++ upperChars sfx) := by
  have hb := shaped_bounds num hsh
  show parse_size_branches (upperChars (stripChars (num ++ sfx))) = _
  rw [stripChars_eq_self (num ++ sfx) ?hws]
  case hws =>
    intro c hc
    rcases List.mem_append.mp hc with h | h
    · exact isWs_eq_false_of_bounds c (by have := (hb c h).1; omega)
    · exact hws c h
  rw [upperChars_append, upperChars_eq_self num ?hup]
  case hup =>
    intro c hc
    exact upChar_eq_self_of_bounds c (by have := (hb c hc).2; omega)

theorem branches_GB (num : List Char) :
    parse_size_branches (num ++ ['G', 'B']) = (floatChars num).map pyInt := by
  unfold parse_size_branches
  rw [endsWith_append num ['G', 'B']]
  rw [show dropRightChars 2 (num ++ ['G', 'B']) = num from dropRight_append num ['G', 'B']]
  simp

theorem branches_G (num : List Char) :
    parse_size_branches (num ++ ['G']) = (floatChars num).map pyInt := by
  unfold parse_size_branches
  rw [endsWith_false_one num 'G' 'G' 'B' (by decide)]
  rw [endsWith_append num ['G']]
  rw [show dropRightChars 1 (num ++ ['G']) = num from dropRight_append num ['G']]
  simp

theorem branches_MB (num : List Char) :
    parse_size_branches (num ++ ['M', 'B'])
      = (floatChars num).map (fun q => pyInt (q / 1024)) := by
  unfold parse_size_branches
  rw [endsWith_false_two_second num 'M' 'B' 'G' 'B' (by decide)]
  rw [endsWith_false_two_single num 'M' 'B' 'G' (by decide)]
  rw [endsWith_append num ['M', 'B']]
  rw [show dropRightChars 2 (num ++ ['M', 'B']) = num from dropRight_append num ['M', 'B']]
  simp

theorem branches_M (num : List Char) :
    parse_size_branches (num ++ ['M'])
      = (floatChars num).map (fun q => pyInt (q / 1024)) := by
  unfold parse_size_branches
  rw [endsWith_false_one num 'M' 'G' 'B' (by decide)]
  rw [endsWith_false_single num 'M' 'G' (by decide)]
  rw [endsWith_false_two_tail num 'M' 'B' 'M' (by decide)]
  rw [endsWith_append num ['M']]
  rw [show dropRightChars 1 (num ++ ['M']) = num from dropRight_append num ['M']]
  simp

/-- floatChars rejects the empty string, as Python float(\"\") raises. -/
theorem floatChars_nil : floatChars [] = none := rfl

theorem branches_bare (num : List Char) (hsh : numericShaped num = true)
    (hne : num ≠ []) :
    parse_size_branches num = (floatChars num).map pyInt := by
  have hb := shaped_bounds num hsh
  cases hrev : num.reverse with
  | nil => exact absurd (List.reverse_eq_nil_iff.mp hrev) hne
  | cons c l =>
      have hcmem : c ∈ num := List.mem_reverse.mp (hrev ▸ List.mem_cons_self c l)
      have hcb := hb c hcmem
      obtain ⟨hB, hG, hM⟩ := shaped_last_ne c hcb.2
      unfold parse_size_branches
      rw [endsWith_false_rev_head num c l hrev 'G' 'B' hB]
      rw [endsWith_false_rev_head_single num c l hrev 'G' hG]
      rw [endsWith_false_rev_head num c l hrev 'M' 'B' hB]
      rw [endsWith_false_rev_head_single num c l hrev 'M' hM]
      simp

theorem parse_size_reduction2 (num sfx SFX : List Char) (hsh : numericShaped num = true)
    (hws : ∀ c ∈ sfx, isWs c = false) (hU : upperChars sfx = SFX) :
    parse_size (String.mk (num ++ sfx)) = parse_size_branches (num ++ SFX) := by
  rw [parse_size_reduction num sfx hsh hws, hU]

/-- C7: parse_size recognizes the suffixes GB, G, MB, M case-insensitively
(every case variant of each suffix), interprets a suffixless numeral as GB,
and returns the size in whole GiB, converting MB/M by dividing by 1024 and
truncating with int(). -/
theorem parse_size_recognizes_units (num sfx : List Char) (q : ℚ)
    (hsh : numericShaped num = true) (hq : floatChars num = some q) :
    (sfx ∈ [['G', 'B'], ['g', 'b'], ['G', 'b'], ['g', 'B']] →
        parse_size (String.mk (num ++ sfx)) = some (pyInt q)) ∧
    (sfx ∈ [['G'], ['g']] → parse_size (String.mk (num ++ sfx)) = some (pyInt q)) ∧
    (sfx ∈ [['M', 'B'], ['m', 'b'], ['M', 'b'], ['m', 'B']] →
        parse_size (String.mk (num ++ sfx)) = some (pyInt (q / 1024))) ∧
    (sfx ∈ [['M'], ['m']] → parse_size (String.mk (num ++ sfx)) = some (pyInt (q / 1024))) ∧
    parse_size (String.mk num) = some (pyInt q) := by
  have hne : num ≠ [] := by
    intro h
    rw [h, floatChars_nil] at hq
    exact Option.noConfusion hq
  refine ⟨?_, ?_, ?_, ?_, ?_⟩
  · intro hmem
    simp only [List.mem_cons, List.not_mem_nil, or_false] at hmem
    rcases hmem with rfl | rfl | rfl | rfl <;>
    · rw [parse_size_reduction2 num _ ['G', 'B'] hsh (by decide) (by decide), branches_GB, hq]
      rfl
  · intro hmem
    simp only [List.mem_cons, List.not_mem_nil, or_false] at hmem
    rcases hmem with rfl | rfl <;>
    · rw [parse_size_reduction2 num _ ['G'] hsh (by decide) (by decide), branches_G, hq]
      rfl
  · intro hmem
    simp only [List.mem_cons, List.not_mem_nil, or_false] at hmem
    rcases hmem with rfl | rfl | rfl | rfl <;>
    · rw [parse_size_reduction2 num _ ['M', 'B'] hsh (by decide) (by decide), branches_MB, hq]
      rfl
  · intro hmem
    simp only [List.mem_cons, List.not_mem_nil, or_false] at hmem
    rcases hmem with rfl | rfl <;>
    · rw [parse_size_reduction2 num _ ['M'] hsh (by decide) (by decide), branches_M, hq]
      rfl
  · have hb := shaped_bounds num hsh
    show parse_size_branches (upperChars (stripChars num)) = _
    rw [stripChars_eq_self num
      (fun c hc => isWs_eq_false_of_bounds c (by have := (hb c hc).1; omega))]
    rw [upperChars_eq_self num
      (fun c hc => upChar_eq_self_of_bounds c (by have := (hb c hc).2; omega))]
    rw [branches_bare num hsh hne, hq]
    rfl

/-- Witness for C7: "2gb" parses to 2 GiB. -/
theorem parse_size_recognizes_units_witness :
    parse_size (String.mk (['2'] ++ ['g', 'b'])) = some 2 := by
  have h := (parse_size_recognizes_units ['2'] ['g', 'b'] ((1 : ℚ) * ((2 : ℕ) : ℚ))
    (by decide) rfl).1 (by decide)
  rw [h, pyInt, if_pos (by norm_num)]
  norm_num

/-- C10: with suffix MB, parsing yields the GiB value truncated downward
(floor, the values being nonnegative), so anything under 1024 MB parses to
0 GiB and spawns neither a Memory nor a Disk worker; fractional GB values
likewise truncate to the whole GiB below. -/
theorem parse_size_truncation (num : List Char) (q : ℚ)
    (hsh : numericShaped num = true) (hq : floatChars num = some q) (hq0 : 0 ≤ q) :
    parse_size (String.mk (num ++ ['M', 'B'])) = some ⌊q / 1024⌋ ∧
    (q < 1024 →
      spawnsMemoryWorker (String.mk (num ++ ['M', 'B'])) = false ∧
      spawnsDiskWorker (String.mk (num ++ ['M', 'B'])) = false) ∧
    parse_size (String.mk (num ++ ['G', 'B'])) = some ⌊q⌋ := by
  have hMB : parse_size (String.mk (num ++ ['M', 'B'])) = some (pyInt (q / 1024)) := by
    rw [parse_size_reduction2 num ['M', 'B'] ['M', 'B'] hsh (by decide) (by decide),
      branches_MB, hq]
    rfl
  have hpy : pyInt (q / 1024) = ⌊q / 1024⌋ := if_pos (div_nonneg hq0 (by norm_num))
  refine ⟨by rw [hMB, hpy], ?_, ?_⟩
  · intro hlt
    have h0 : ⌊q / 1024⌋ = 0 := by
      rw [Int.floor_eq_zero_iff, Set.mem_Ico]
      refine ⟨div_nonneg hq0 (by norm_num), ?_⟩
      rw [div_lt_one (by norm_num)]
      linarith
    constructor
    · unfold spawnsMemoryWorker
      rw [hMB, hpy, h0]
      rfl
    · unfold spawnsDiskWorker
      rw [hMB, hpy, h0]
      rfl
  · rw [parse_size_reduction2 num ['G', 'B'] ['G', 'B'] hsh (by decide) (by decide),
      branches_GB, hq]
    show some (pyInt q) = some ⌊q⌋
    rw [pyInt, if_pos hq0]

/-- Witness for C10: "512MB" parses to 0 GiB and spawns no Memory worker. -/
theorem parse_size_truncation_witness :
    parse_size (String.mk (['5', '1', '2'] ++ ['M', 'B'])) = some 0 ∧
    spawnsMemoryWorker (String.mk (['5', '1', '2'] ++ ['M', 'B'])) = false := by
  have h := parse_size_truncation ['5', '1', '2'] ((1 : ℚ) * ((512 : ℕ) : ℚ))
    (by decide) rfl (by norm_num)
  refine ⟨?_, (h.2.1 (by norm_num)).1⟩
  rw [h.1]
  congr 1
  rw [Int.floor_eq_zero_iff, Set.mem_Ico]
  constructor <;> norm_num

/-! ## Stress workers (stressors.py) -/

/-- Terminal shape of the Memory worker process (stressors.burn_memory):
how many 1 GiB blocks the blocks list still references, whether the
MemoryError message was printed, whether the worker is parked in its
infinite time.sleep(1) loop, and whether any exception escaped the worker
function. -/
structure MemResult where
  blocksHeld : ℕ
  reportedFailure : Bool
  sleepsForever : Bool
  uncaught : Bool
  deriving DecidableEq, Repr

/-- The allocation loop of burn_memory: for each index in range(size_gb) it
appends bytearray(1024 * 1024 * 1024) to blocks; allocOk says whether the
allocation at a given index succeeds or raises MemoryError.  When every
allocation succeeds the worker holds size_gb blocks and sleeps forever; the
except MemoryError arm prints the failure message and also sleeps forever,
with the blocks list — everything allocated so far — still referenced. -/
def memLoop (allocOk : ℕ → Bool) : ℕ → ℕ → MemResult
  | held, 0 => ⟨held, false, true, false⟩
  | held, n + 1 =>
      if allocOk held then memLoop allocOk (held + 1) n
      else ⟨held, true, true, false⟩

/-- stressors.burn_memory, starting from the empty blocks list. -/
def burn_memory (size_gb : ℕ) (allocOk : ℕ → Bool) : MemResult :=
  memLoop allocOk 0 size_gb

theorem memLoop_fail (allocOk : ℕ → Bool) (n i k : ℕ) (hik : i ≤ k) (hk : k < i + n)
    (hgood : ∀ j, i ≤ j → j < k → allocOk j = true) (hbad : allocOk k = false) :
    memLoop allocOk i n = ⟨k, true, true, false⟩ := by
  induction n generalizing i with
  | zero => omega
  | succ n ih =>
      rw [memLoop]
      by_cases h : i = k
      · subst h
        rw [hbad]
        simp
      · rw [hgood i le_rfl (by omega)]
        simp only [if_true]
        exact ih (i + 1) (by omega) (by omega) (fun j hj1 hj2 => hgood j (by omega) hj2)

/-- C4: if the Memory worker's block-by-block allocation first fails at
index k (before reaching the configured total), the worker prints the
failure, keeps all k already-allocated blocks referenced rather than
releasing them, stays parked in its sleep loop, and lets no exception escape
— the worker runs in its own process, so the orchestrator is untouched. -/
theorem burn_memory_partial_failure (size_gb k : ℕ) (allocOk : ℕ → Bool)
    (hk : k < size_gb) (hgood : ∀ j, j < k → allocOk j = true)
    (hbad : allocOk k = false) :
    burn_memory size_gb allocOk = ⟨k, true, true, false⟩ :=
  memLoop_fail allocOk size_gb 0 k (Nat.zero_le k) (by omega)
    (fun j _ hj => hgood j hj) hbad

/-- Witness for C4: of 3 requested GiB blocks only the first 2 allocate; the
worker reports the failure, holds exactly those 2 blocks and keeps
sleeping. -/
theorem burn_memory_partial_failure_witness :
    burn_memory 3 (fun j => decide (j < 2)) = ⟨2, true, true, false⟩ :=
  burn_memory_partial_failure 3 2 (fun j => decide (j < 2)) (by omega)
    (fun j hj => by simp [hj]) (by decide)

/-- One observable action of the Disk worker (stressors.burn_disk). -/
inductive DiskEvent where
  | openWrite (path : String)
  | writeBlock
  | closeFile
  | fsync
  | readBack
  | deleteFile (path : String)
  | printDiskError
  | sleepForever
  deriving DecidableEq, Repr

/-- stressors.burn_disk as the trace of actions it performs: with
open(path, 'wb') it writes size_gb one-GiB buffers of b'0' in a single pass,
then sleeps forever.  failAt = some k models an exception raised by write
number k (the only fallible operation of the loop); the context manager
closes the file and the except arm prints a single generic disk stress error
and sleeps forever.  Neither path fsyncs, reads back, verifies, or deletes
the scratch file. -/
def burn_disk (path : String) (size_gb : ℕ) (failAt : Option ℕ) : List DiskEvent :=
  match failAt with
  | none =>
      DiskEvent.openWrite path :: List.replicate size_gb DiskEvent.writeBlock ++
        [DiskEvent.closeFile, DiskEvent.sleepForever]
  | some k =>
      if k < size_gb then
        DiskEvent.openWrite path :: List.replicate k DiskEvent.writeBlock ++
          [DiskEvent.closeFile, DiskEvent.printDiskError, DiskEvent.sleepForever]
      else
        DiskEvent.openWrite path :: List.replicate size_gb DiskEvent.writeBlock ++
          [DiskEvent.closeFile, DiskEvent.sleepForever]

/-- C1 counterexample: with a 1 GiB configuration and no I/O error, the Disk
worker's trace contains no read-back, no fsync and no deletion of the
scratch file — there is no write/read/verify cycle at all, hence no
DataIntegrityFault can ever be recorded, and the worker does not delete the
file on stop. -/
theorem burn_disk_counterexample :
    (burn_disk (String.mk ['f']) 1 none).count DiskEvent.readBack = 0 ∧
    (burn_disk (String.mk ['f']) 1 none).count DiskEvent.fsync = 0 ∧
    (burn_disk (String.mk ['f']) 1 none).count (DiskEvent.deleteFile (String.mk ['f'])) = 0 ∧
    burn_disk (String.mk ['f']) 1 none =
      [DiskEvent.openWrite (String.mk ['f']), DiskEvent.writeBlock,
        DiskEvent.closeFile, DiskEvent.sleepForever] := by
  refine ⟨by decide, by decide, by decide, by decide⟩

/-- C1 amended: for every path, size and failure point, the Disk worker
writes its zero blocks in one pass and parks in an infinite sleep; its trace
never contains a read-back, an fsync or a deletion; an I/O failure is
reported only through the single generic disk error message — there is no
data-integrity verification and no fault kind distinct from the I/O error;
deletion of the scratch file is left to the orchestrator's cleanup. -/
theorem burn_disk_single_pass (path : String) (size_gb : ℕ) (failAt : Option ℕ) :
    DiskEvent.readBack ∉ burn_disk path size_gb failAt ∧
    DiskEvent.fsync ∉ burn_disk path size_gb failAt ∧
    (∀ p, DiskEvent.deleteFile p ∉ burn_disk path size_gb failAt) ∧
    DiskEvent.sleepForever ∈ burn_disk path size_gb failAt ∧
    (∀ k, k < size_gb →
      DiskEvent.printDiskError ∈ burn_disk path size_gb (some k)) := by
  refine ⟨?_, ?_, ?_, ?_, ?_⟩
  · rcases failAt with _ | k
    · simp [burn_disk, List.mem_replicate]
    · by_cases h : k < size_gb <;> simp [burn_disk, h, List.mem_replicate]
  · rcases failAt with _ | k
    · simp [burn_disk, List.mem_replicate]
    · by_cases h : k < size_gb <;> simp [burn_disk, h, List.mem_replicate]
  · intro p
    rcases failAt with _ | k
    · simp [burn_disk, List.mem_replicate]
    · by_cases h : k < size_gb <;> simp [burn_disk, h, List.mem_replicate]
  · rcases failAt with _ | k
    · simp [burn_disk]
    · by_cases h : k < size_gb <;> simp [burn_disk, h]
  · intro k hk
    simp [burn_disk, hk]

/-- Result of the Network worker (stressors.burn_network): how many request
cycles ran and whether the worker stopped before its duration elapsed.  The
source keeps no other per-run state — in particular it has no failure
counter; the target URL and the wall-clock duration are abstracted into the
schedule of request outcomes. -/
structure NetResult where
  requestsAttempted : ℕ
  stoppedEarly : Bool
  deriving DecidableEq, Repr

/-- The while-loop of burn_network: each cycle issues requests.get(url)
inside try; an exception is swallowed by except Exception: pass and the loop
just continues.  outcomes lists, for each cycle the wall clock allows before
end_time, whether the request succeeded (true) or raised (false). -/
def netLoop : List Bool → ℕ → NetResult
  | [], n => ⟨n, false⟩
  | _ :: rest, n => netLoop rest (n + 1)

/-- stressors.burn_network, starting from the first cycle. -/
def burn_network (outcomes : List Bool) : NetResult :=
  netLoop outcomes 0

theorem netLoop_runs_all (outcomes : List Bool) (n : ℕ) :
    netLoop outcomes n = ⟨n + outcomes.length, false⟩ := by
  induction outcomes generalizing n with
  | nil => simp [netLoop]
  | cons b rest ih =>
      rw [netLoop, ih]
      simp only [List.length_cons]
      congr 1
      omega

/-- C6 counterexample: a run whose single request fails is observably
identical to a run whose single request succeeds — the worker's result
carries no failure count, so no count of failed requests is maintained for
reporting. -/
theorem burn_network_counterexample :
    burn_network [false] = burn_network [true] := rfl

/-- C6 amended: every individual request failure is swallowed and the next
cycle proceeds — the worker completes exactly as many cycles as its duration
allows and never stops early, whatever the failures; but it maintains no
failure count: its result is determined by the cycle count alone, so two
runs of equal length are indistinguishable regardless of which requests
failed. -/
theorem burn_network_swallows_failures (outcomes other : List Bool)
    (hlen : outcomes.length = other.length) :
    burn_network outcomes = ⟨outcomes.length, false⟩ ∧
    burn_network outcomes = burn_network other := by
  constructor
  · rw [burn_network, netLoop_runs_all]
    simp
  · rw [burn_network, burn_network, netLoop_runs_all, netLoop_runs_all, hlen]

/-- Witness for C6: a failing-then-succeeding run of two cycles equals an
all-success run of two cycles, and both ran to the end. -/
theorem burn_network_swallows_failures_witness :
    burn_network [false, true] = ⟨2, false⟩ ∧
    burn_network [false, true] = burn_network [true, true] :=
  burn_network_swallows_failures [false, true] [true, true] rfl

/-- Control state of the GPU worker (stressors.burn_gpu). -/
inductive GpuState where
  | start
  | sleepLoop
  | benchmarking (fuel : ℕ)
  | terminated
  deriving DecidableEq, Repr

/-- One step of burn_gpu.  When HAS_PYCUDA is false the worker prints that
GPU stress is unavailable and enters while True: time.sleep(1) — the return
statement after that loop is unreachable.  With pycuda present it runs the
benchmark workload for its duration (abstracted as fuel) and returns. -/
def burn_gpu_step (hasPycuda : Bool) (duration : ℕ) : GpuState → GpuState
  | GpuState.start =>
      if hasPycuda then GpuState.benchmarking duration else GpuState.sleepLoop
  | GpuState.sleepLoop => GpuState.sleepLoop
  | GpuState.benchmarking 0 => GpuState.terminated
  | GpuState.benchmarking (n + 1) => GpuState.benchmarking n
  | GpuState.terminated => GpuState.terminated

/-- The GPU worker after n scheduler steps from its entry point. -/
def burn_gpu_run (hasPycuda : Bool) (duration : ℕ) (n : ℕ) : GpuState :=
  (burn_gpu_step hasPycuda duration)^[n] GpuState.start

theorem burn_gpu_run_nopycuda (duration n : ℕ) (hn : 1 ≤ n) :
    burn_gpu_run false duration n = GpuState.sleepLoop := by
  induction n with
  | zero => omega
  | succ m ih =>
      rw [burn_gpu_run, Function.iterate_succ_apply']
      rcases Nat.eq_zero_or_pos m with rfl | hm
      · rfl
      · rw [show (burn_gpu_step false duration)^[m] GpuState.start
            = GpuState.sleepLoop from ih hm]
        rfl

/-- C2 counterexample: with the CUDA bindings absent the GPU worker never
reaches a terminated state — after any number of steps it is still looping —
so it does not report and terminate immediately as the claim states. -/
theorem burn_gpu_counterexample :
    ¬ ∃ n, burn_gpu_run false 60 n = GpuState.terminated := by
  rintro ⟨n, hn⟩
  rcases Nat.eq_zero_or_pos n with rfl | hpos
  · exact GpuState.noConfusion hn
  · rw [burn_gpu_run_nopycuda 60 n hpos] at hn
    exact GpuState.noConfusion hn

/-- C2 amended: when the CUDA bindings are not importable the GPU worker
prints its unavailability message and then loops in time.sleep(1) forever:
from the first step on it is permanently in the sleep loop and never
terminates (no Failed/DeviceUnavailable state is ever reported — the
return after the loop is dead code). -/
theorem burn_gpu_sleeps_forever (duration n : ℕ) (hn : 1 ≤ n) :
    burn_gpu_run false duration n = GpuState.sleepLoop :=
  burn_gpu_run_nopycuda duration n hn

/-- Witness for C2's amended statement: three steps in, the worker without
pycuda is in the sleep loop. -/
theorem burn_gpu_sleeps_forever_witness :
    burn_gpu_run false 60 3 = GpuState.sleepLoop :=
  burn_gpu_sleeps_forever 60 3 (by omega)

/-! ## Orchestrator cleanup and signal handling (stress_tool.py) -/

/-- State the orchestrator's cleanup path acts on: how many times cleanup()
has executed, the effects of its four actions, and whether sys.exit(0) was
reached. -/
structure OrchState where
  cleanupRuns : ℕ
  monitorStopped : Bool
  stopEventSet : Bool
  workersTerminated : Bool
  tempFileExists : Bool
  exited : Bool
  deriving DecidableEq, Repr

/-- stress_tool.main's nested cleanup(): stop the monitor (set + join), set
the stop event, terminate the live worker processes, remove the temp disk
file if it exists, and print completion.  Nothing in it checks whether
cleanup already ran. -/
def cleanup (s : OrchState) : OrchState :=
  { s with
    cleanupRuns := s.cleanupRuns + 1
    monitorStopped := true
    stopEventSet := true
    workersTerminated := true
    tempFileExists := false }

/-- stress_tool.main's signal_handler: print, call cleanup()
unconditionally, then sys.exit(0).  There is no already-stopping flag. -/
def signal_handler (s : OrchState) : OrchState :=
  { cleanup s with exited := true }

/-- Orchestrator state when the run is interrupted for the first time. -/
def orchInit : OrchState := ⟨0, false, false, false, true, false⟩

/-- C3 counterexample: the first signal's handler has finished cleanup and
is about to exit when a second signal arrives; its handler runs cleanup
again — cleanup executes twice, so the claimed single-trigger guard does not
exist. -/
theorem signal_reentry_counterexample :
    (signal_handler (cleanup orchInit)).cleanupRuns = 2 := rfl

/-- C3 amended: a signal always triggers cleanup and exit, with no
single-trigger guard: from any state — including one already mid-shutdown —
the handler reenters the cleanup logic and increments the run count.  The
cleanup body itself is repetition-safe (stopping the stopped monitor,
re-setting the event, re-terminating workers and the existence-checked file
removal change nothing), so a second cleanup only runs again; it does not
hang or alter the final state. -/
theorem signal_handler_no_guard (s : OrchState) :
    (signal_handler s).cleanupRuns = s.cleanupRuns + 1 ∧
    (signal_handler s).exited = true ∧
    cleanup (cleanup s) = { cleanup s with cleanupRuns := (cleanup s).cleanupRuns + 1 } := by
  refine ⟨rfl, rfl, rfl⟩

/-! ## Monitor loop and stop (monitoring.py) -/

/-- Program counter of the _monitor_loop thread: at the while-condition,
about to sample-and-append, in time.sleep(interval), or exited. -/
inductive MPc where
  | check
  | append
  | sleep
  | done
  deriving DecidableEq, Repr

/-- Program counter of the caller inside Monitor.stop(): about to set the
stop event, about to join the thread, or returned from stop(). -/
inductive SPc where
  | setFlag
  | join
  | returned
  deriving DecidableEq, Repr

/-- Joint state of the monitor thread and the stop() caller.  log records
the appended sample ids in order (the payload of each stat is irrelevant to
the stop property, so samples are numbered). -/
structure MonState where
  stopFlag : Bool
  log : List ℕ
  nextSample : ℕ
  mpc : MPc
  spc : SPc
  deriving DecidableEq, Repr

/-- Interleaved small-step semantics of Monitor._monitor_loop running
concurrently with Monitor.stop().  The thread checks the event, appends one
stat, sleeps, and loops; stop() sets the event and then joins — the join
step is enabled only once the thread has exited its loop, which is exactly
what threading.Thread.join waits for. -/
inductive MonStep : MonState → MonState → Prop where
  | checkStop (s : MonState) (h : s.mpc = MPc.check) (hf : s.stopFlag = true) :
      MonStep s { s with mpc := MPc.done }
  | checkGo (s : MonState) (h : s.mpc = MPc.check) (hf : s.stopFlag = false) :
      MonStep s { s with mpc := MPc.append }
  | appendSample (s : MonState) (h : s.mpc = MPc.append) :
      MonStep s { s with
        log := s.log ++ [s.nextSample]
        nextSample := s.nextSample + 1
        mpc := MPc.sleep }
  | wake (s : MonState) (h : s.mpc = MPc.sleep) :
      MonStep s { s with mpc := MPc.check }
  | mainSet (s : MonState) (h : s.spc = SPc.setFlag) :
      MonStep s { s with stopFlag := true, spc := SPc.join }
  | mainJoin (s : MonState) (h : s.spc = SPc.join) (hm : s.mpc = MPc.done) :
      MonStep s { s with spc := SPc.returned }

/-- Reachability under the interleaving semantics. -/
def MonReach : MonState → MonState → Prop := Relation.ReflTransGen MonStep

/-- The run starts with the monitor thread at its loop head and the main
thread entering stop(). -/
def monInit : MonState := ⟨false, [], 0, MPc.check, SPc.setFlag⟩

theorem monStep_inv (s t : MonState) (hstep : MonStep s t)
    (hinv : s.spc = SPc.returned → s.mpc = MPc.done) :
    t.spc = SPc.returned → t.mpc = MPc.done := by
  cases hstep with
  | checkStop h hf => intro _; rfl
  | checkGo h hf =>
      intro hr
      have hd := hinv hr
      rw [h] at hd
      exact MPc.noConfusion hd
  | appendSample h =>
      intro hr
      have hd := hinv hr
      rw [h] at hd
      exact MPc.noConfusion hd
  | wake h =>
      intro hr
      have hd := hinv hr
      rw [h] at hd
      exact MPc.noConfusion hd
  | mainSet h => intro hr; exact SPc.noConfusion hr
  | mainJoin h hm => intro _; exact hm

theorem monReach_inv (s : MonState) (hr : MonReach monInit s) :
    s.spc = SPc.returned → s.mpc = MPc.done := by
  induction hr with
  | refl => intro h; exact SPc.noConfusion h
  | tail hab hbc ih => exact monStep_inv _ _ hbc ih

theorem no_step_after_returned (s t : MonState) (hret : s.spc = SPc.returned)
    (hdone : s.mpc = MPc.done) (hstep : MonStep s t) : False := by
  cases hstep with
  | checkStop h hf => rw [h] at hdone; exact MPc.noConfusion hdone
  | checkGo h hf => rw [h] at hdone; exact MPc.noConfusion hdone
  | appendSample h => rw [h] at hdone; exact MPc.noConfusion hdone
  | wake h => rw [h] at hdone; exact MPc.noConfusion hdone
  | mainSet h => rw [h] at hret; exact SPc.noConfusion hret
  | mainJoin h hm => rw [h] at hret; exact SPc.noConfusion hret

/-- C5: once Monitor.stop() has returned, the stats log never changes again
in any continuation of the execution: every append happens before stop()
returns.  (stop() sets the event and joins the thread, and the join is
enabled only after the loop has exited, so no dangling writer remains.) -/
theorem monitor_stop_no_append (s t : MonState) (hs : MonReach monInit s)
    (hret : s.spc = SPc.returned) (hst : MonReach s t) : t.log = s.log := by
  have hdone := monReach_inv s hs hret
  rcases Relation.ReflTransGen.cases_head hst with rfl | ⟨u, hu, _⟩
  · rfl
  · exact absurd hu (fun h => no_step_after_returned s u hret hdone h)

/-- Witness for C5: a concrete execution in which the monitor appends one
sample, the stop event is set, the loop observes it and exits, and stop()
returns; the theorem applies to its final state. -/
theorem monitor_stop_no_append_witness :
    (⟨true, [0], 1, MPc.done, SPc.returned⟩ : MonState).log
      = (⟨true, [0], 1, MPc.done, SPc.returned⟩ : MonState).log := by
  have hreach : MonReach monInit ⟨true, [0], 1, MPc.done, SPc.returned⟩ :=
    Relation.ReflTransGen.head (MonStep.checkGo monInit rfl rfl)
      (Relation.ReflTransGen.head (MonStep.appendSample _ rfl)
        (Relation.ReflTransGen.head (MonStep.wake _ rfl)
          (Relation.ReflTransGen.head (MonStep.mainSet _ rfl)
            (Relation.ReflTransGen.head (MonStep.checkStop _ rfl rfl)
              (Relation.ReflTransGen.head (MonStep.mainJoin _ rfl rfl)
                Relation.ReflTransGen.refl)))))
  exact monitor_stop_no_append _ _ hreach rfl Relation.ReflTransGen.refl

/-! ## Sample timestamps (monitoring.Monitor._monitor_loop) -/

/-- Seconds within the current day of an absolute local timestamp (seconds
count, timezone already applied): the only time information that
time.strftime('%H:%M:%S') retains. -/
def timeOfDay (t : ℕ) : ℕ := t % 86400

/-- The hour-minute-second triple formatted into a stat's time field; the
zero-padded %H:%M:%S string orders exactly like this triple ordered
lexicographically. -/
def hms (t : ℕ) : ℕ × ℕ × ℕ :=
  (timeOfDay t / 3600, timeOfDay t % 3600 / 60, timeOfDay t % 60)

/-- The time fields of the stats log for a run whose loop samples at the
given absolute times, in insertion order. -/
def monitorTimestamps (times : List ℕ) : List (ℕ × ℕ × ℕ) := times.map hms

/-- Order of two formatted timestamps (lexicographic on hour, minute,
second — the order of the corresponding %H:%M:%S strings). -/
def tsLe (a b : ℕ × ℕ × ℕ) : Prop :=
  a.1 < b.1 ∨ (a.1 = b.1 ∧ (a.2.1 < b.2.1 ∨ (a.2.1 = b.2.1 ∧ a.2.2 ≤ b.2.2)))

/-- C8 counterexample: a run sampling at absolute seconds 86399 and 86401 —
two seconds apart, crossing midnight — logs the timestamps 23:59:59 and then
00:00:01, which decrease in insertion order: the recorded %H:%M:%S strings
keep only the time of day, so a run crossing midnight violates the claim. -/
theorem monitor_timestamps_counterexample :
    86399 ≤ 86401 ∧
    monitorTimestamps [86399, 86401] = [(23, 59, 59), (0, 0, 1)] ∧
    ¬ List.Chain' tsLe (monitorTimestamps [86399, 86401]) := by
  have heq : monitorTimestamps [86399, 86401] = [(23, 59, 59), (0, 0, 1)] := by decide
  refine ⟨by omega, heq, fun hch => ?_⟩
  rw [heq] at hch
  have h1 := (List.chain'_cons.mp hch).1
  simp [tsLe] at h1

/-- C8 amended: as long as all of a run's samples fall within one calendar
day, the logged timestamps are non-decreasing in insertion order (the
sampling instants themselves are always non-decreasing; only the recorded
time-of-day representation can wrap at midnight). -/
theorem monitor_timestamps_monotone (times : List ℕ) (d : ℕ)
    (hday : ∀ t ∈ times, t / 86400 = d)
    (hmono : List.Chain' (fun a b => a ≤ b) times) :
    List.Chain' tsLe (monitorTimestamps times) := by
  unfold monitorTimestamps
  rw [List.chain'_map, List.chain'_iff_get]
  rw [List.chain'_iff_get] at hmono
  intro i h
  have hmem1 : times.get ⟨i, by omega⟩ ∈ times := times.get_mem _ _
  have hmem2 : times.get ⟨i + 1, by omega⟩ ∈ times := times.get_mem _ _
  have hda := hday _ hmem1
  have hdb := hday _ hmem2
  have hle := hmono i h
  unfold tsLe hms timeOfDay
  dsimp only
  omega

/-- Witness for C8's amended statement: two same-day samples ten seconds
apart log non-decreasing timestamps. -/
theorem monitor_timestamps_monotone_witness :
    List.Chain' tsLe (monitorTimestamps [10, 20]) :=
  monitor_timestamps_monotone [10, 20] 0
    (by intro t ht; fin_cases ht <;> rfl)
    (List.chain'_cons.mpr ⟨by omega, List.chain'_singleton 20⟩)

/-! ## Export of the stats log (monitoring.Monitor.export_csv / export_json) -/

/-- One stat dict appended by _monitor_loop, with its fields in insertion
order: time, cpu, ram, disk, net_sent, net_recv. -/
structure Stat where
  time : ℕ × ℕ × ℕ
  cpu : ℚ
  ram : ℚ
  disk : ℚ
  net_sent : ℕ
  net_recv : ℕ
  deriving DecidableEq

/-- The CSV header row: self.stats[0].keys() in dict insertion order. -/
def csvFieldnames : List String :=
  ["time", "cpu", "ram", "disk", "net_sent", "net_recv"]

/-- Monitor.export_csv: `if not self.stats: return` — with an empty log no
file is created or written (none); otherwise the file holds the header row
and one row per stat in log order (modelled structurally: the rendering of
each field to text is injective and irrelevant here). -/
def export_csv (stats : List Stat) : Option (List String × List Stat) :=
  match stats with
  | [] => none
  | _ => some (csvFieldnames, stats)

/-- Monitor.export_json: unconditionally opens the file and json.dump's the
stats list — for an empty log it still creates the file and writes the empty
JSON array (modelled as some of the serialized list). -/
def export_json (stats : List Stat) : Option (List Stat) :=
  some stats

/-- C9: on an empty log, export_csv creates no file at all while export_json
still creates the file and writes an empty JSON array; on a non-empty log
export_csv writes the header and all rows. -/
theorem export_empty_log_behavior :
    export_csv ([] : List Stat) = none ∧
    export_json ([] : List Stat) = some [] ∧
    ∀ (s : Stat) (rest : List Stat),
      export_csv (s :: rest) = some (csvFieldnames, s :: rest) :=
  ⟨rfl, rfl, fun _ _ => rfl⟩

end StressTool
